import Mathlib

/-!
Verification development for the IPL player-lifecycle analytics app
(`src/app.py`).  The data-cleaning pipeline `load_and_process_data` and the
per-figure analytical computations are shallowly embedded as executable
functions over lists of rows; pandas/numpy numeric cells are modelled as
`Option ℚ` (with `none` playing the role of NaN), and the result of
`pd.to_numeric(..., errors='coerce')` is abstracted by the `RawCell` type:
`numeric q` stands for any cell that parses to the number `q`, `text s` for a
cell that does not parse, and `missing` for NaN.
-/

namespace IPL

/-- A raw CSV cell as seen by pandas: NaN, a numerically parseable value, or
free-form text that `pd.to_numeric(errors='coerce')` would turn into NaN. -/
inductive RawCell
  | missing
  | numeric (q : ℚ)
  | text (s : String)
deriving DecidableEq

/-- One raw input row, restricted to the columns the cleaning-related claims
touch.  The remaining ~20 statistic columns of `app.py` go through exactly the
same `replace('No stats', nan)` / `to_numeric` treatment as
`Batting_Average` / `Bowling_Average` and do not interact with the claims. -/
structure RawRow where
  player : Option String
  year : RawCell
  battingAverage : RawCell
  bowlingAverage : RawCell
deriving DecidableEq

/-- One cleaned row of the canonical dataset.  A `player` is always present
(rows with a missing `Player_Name` are dropped), the season may be null when
the raw season text did not parse. -/
structure CleanRow where
  player : String
  year : Option ℚ
  battingAverage : Option ℚ
  bowlingAverage : Option ℚ
deriving DecidableEq

/-- Models pandas `.str.strip()` (app.py line 76): remove leading and trailing
whitespace from a player name. -/
def strip (s : String) : String :=
  ⟨((s.data.dropWhile Char.isWhitespace).reverse.dropWhile Char.isWhitespace).reverse⟩

/-- `df[col].replace('No stats', np.nan)` on a single cell (app.py line 64). -/
def noStats (c : RawCell) : RawCell :=
  if c = RawCell.text "No stats" then RawCell.missing else c

/-- `pd.to_numeric(cell, errors='coerce')` (app.py lines 67, 70). -/
def toNum : RawCell → Option ℚ
  | RawCell.missing => none
  | RawCell.numeric q => some q
  | RawCell.text _ => none

/-- `df.loc[df[col] > 100, col] = np.nan` on a single cell (app.py
lines 71-74); a NaN compares false, so only present values above 100 are
nulled. -/
def clip100 : Option ℚ → Option ℚ
  | none => none
  | some v => if 100 < v then none else some v

/-- The row-local part of `load_and_process_data` (app.py lines 52-76), in
source order: drop the row when `Player_Name` or `Year` is NaN; replace the
`'No stats'` sentinel and coerce the statistic columns; coerce `Year`
(an unparseable season becomes null but the row is kept); null averages above
100; strip whitespace from the player name. -/
def cleanFn (r : RawRow) : Option CleanRow :=
  match r.player with
  | none => none
  | some p =>
    if r.year = RawCell.missing then none
    else
      some { player := strip p
             year := toNum r.year
             battingAverage := clip100 (toNum (noStats r.battingAverage))
             bowlingAverage := clip100 (toNum (noStats r.bowlingAverage)) }

/-- The dedup key of app.py line 79.  The source builds the string
`Player_Name + '_' + str(Year)`; since `str` of a float (or `'nan'`) never
contains an underscore, that string determines and is determined by the
(player, year) pair, which we use directly. -/
def rowKey (r : CleanRow) : String × Option ℚ :=
  (r.player, r.year)

/-- `df.drop_duplicates(subset=['核心键'], keep='first')` (app.py line 80):
keep a row iff its key has not been seen before. -/
def dedupFirst : List CleanRow → List (String × Option ℚ) → List CleanRow
  | [], _ => []
  | r :: rs, seen =>
    if rowKey r ∈ seen then dedupFirst rs seen
    else r :: dedupFirst rs (rowKey r :: seen)

/-- The whole cleaning pipeline `load_and_process_data` (app.py lines 47-83). -/
def load_and_process_data (rows : List RawRow) : List CleanRow :=
  dedupFirst (rows.filterMap cleanFn) []

/-! Shared numeric helpers for the figure computations. -/

/-- Rounding of `x` to the nearest integer, ties to even, as performed by
Python's built-in `round` and numpy/pandas `.round` (used at app.py
lines 96-97, 286, 590). -/
def rEven (x : ℚ) : ℤ :=
  if x - ⌊x⌋ < 1/2 then ⌊x⌋
  else if 1/2 < x - ⌊x⌋ then ⌊x⌋ + 1
  else if ⌊x⌋ % 2 = 0 then ⌊x⌋ else ⌊x⌋ + 1

/-- `round(x, 1)`: round to one decimal digit. -/
def round1 (x : ℚ) : ℚ :=
  (rEven (10 * x) : ℚ) / 10

/-- Arithmetic mean of a list of values (`np.mean` / pandas `'mean'`). -/
def mean (l : List ℚ) : ℚ :=
  l.sum / l.length

/-- Population variance: mean squared deviation from the mean.  `np.std`
(app.py line 489) is its square root (delta degrees of freedom 0). -/
def pvar (l : List ℚ) : ℚ :=
  (l.map (fun x => (x - mean l) ^ 2)).sum / l.length

/-- `np.std(l) / np.mean(l)`, the coefficient of variation computed at app.py
line 490. -/
noncomputable def cv (l : List ℚ) : ℝ :=
  Real.sqrt ((pvar l : ℚ) : ℝ) / ((mean l : ℚ) : ℝ)

/-- Pandas `.median()`: the middle element of the sorted values for odd
length, the average of the two middle elements for even length (app.py
lines 541-542).  On an empty list this yields the convention value `0`;
the claims only use it on nonempty populations. -/
def median (l : List ℚ) : ℚ :=
  let s := List.insertionSort (· ≤ ·) l
  if l.length % 2 = 1 then s.getD (l.length / 2) 0
  else (s.getD (l.length / 2 - 1) 0 + s.getD (l.length / 2) 0) / 2

/-! Figure 1 (family A): distribution summary of `Runs_Scored`
(app.py lines 87-97). -/

/-- The filtered value list of app.py lines 90-92: present (`notna`) values
that are strictly positive. -/
def posRuns (l : List (Option ℚ)) : List ℚ :=
  (l.filterMap id).filter (fun v => decide (0 < v))

/-- The two named-range shares of app.py lines 94-97: the percentage of
filtered values in `[0, 150]` and at or above `500`, each rounded to one
decimal.  When the filtered list is empty the source divides `0` by `0`
(`ZeroDivisionError`, there is no emptiness guard), which this embedding
renders as `none`. -/
def fig1Shares (l : List (Option ℚ)) : Option (ℚ × ℚ) :=
  let vs := posRuns l
  if vs.length = 0 then none
  else some
    (round1 (((vs.filter (fun v => decide (0 ≤ v) && decide (v ≤ 150))).length : ℚ) /
      (vs.length : ℚ) * 100),
     round1 (((vs.filter (fun v => decide (500 ≤ v))).length : ℚ) /
      (vs.length : ℚ) * 100))

/-! Figure 5 (family E): normalized multi-metric radar comparison
(app.py lines 240-310). -/

/-- The `fillna(0)` substitution applied to each metric column of the
selected players (app.py line 254). -/
def fillZero (l : List (Option ℚ)) : List ℚ :=
  l.map (fun v => v.getD 0)

/-- The per-metric extremes of app.py lines 273-277: minimum and maximum of
the strictly positive values among the representative records, with the
default `(0, 1)` when no value is positive. -/
def extremes (vals : List ℚ) : ℚ × ℚ :=
  match vals.filter (fun v => decide (0 < v)) with
  | [] => (0, 1)
  | h :: t => (t.foldl min h, t.foldl max h)

/-- `normalize_indicator` (app.py lines 265-271): midpoint 5.0 when the
extremes coincide, otherwise min-max normalization onto a 0-10 scale,
inverted for reverse-scored metrics, clamped into `[0, 10]`. -/
def normalize_indicator (value min_val max_val : ℚ) (is_reverse : Bool) : ℚ :=
  if max_val = min_val then 5
  else
    let norm_score : ℚ :=
      if is_reverse then 10 - (value - min_val) / (max_val - min_val) * 10
      else (value - min_val) / (max_val - min_val) * 10
    max 0 (min 10 norm_score)

/-- The scores of one metric across all representative records (app.py
lines 279-287): each record's value is normalized against the extremes of
the metric over those records and rounded to one decimal. -/
def metricScores (vals : List ℚ) (is_reverse : Bool) : List ℚ :=
  vals.map (fun v =>
    round1 (normalize_indicator v (extremes vals).1 (extremes vals).2 is_reverse))

/-! Grouping helper shared by the per-entity analyses: pandas `groupby`
aggregation modelled as first-occurrence-ordered groups whose member lists
preserve row order. -/

/-- Append value `v` to key `k`'s group, creating the group if absent. -/
def groupUpd {α : Type} (acc : List (String × List α)) (k : String) (v : α) :
    List (String × List α) :=
  match acc with
  | [] => [(k, [v])]
  | (k2, vs) :: rest =>
    if k2 = k then (k2, vs ++ [v]) :: rest else (k2, vs) :: groupUpd rest k v

/-- Group a list of (key, value) pairs by key. -/
def groupPairs {α : Type} (l : List (String × α)) : List (String × List α) :=
  l.foldl (fun acc kv => groupUpd acc kv.1 kv.2) []

/-! Figure 13 (family M): variability classification via the coefficient of
variation (app.py lines 481-498). -/

/-- One row as consumed by figure 13. -/
structure Row13 where
  player : Option String
  year : Option ℚ
  battingAverage : Option ℚ
deriving DecidableEq

/-- The validity filter of app.py line 483: strictly positive batting
average (NaN compares false), present year and present player name. -/
def fig13Valid (rows : List Row13) : List Row13 :=
  rows.filter (fun r =>
    decide (0 < r.battingAverage.getD 0) && r.year.isSome && r.player.isSome)

/-- The per-player lists of batting averages built by the `groupby`
aggregation of app.py lines 484-486. -/
def fig13Groups (rows : List Row13) : List (String × List ℚ) :=
  groupPairs ((fig13Valid rows).map
    (fun r => (r.player.getD "", r.battingAverage.getD 0)))

/-- The retention condition of app.py line 491: a player is kept iff the
coefficient of variation is at most 2.0. -/
def fig13Keeps (l : List ℚ) : Prop :=
  cv l ≤ 2

/-! Figure 8 (family H): score-structure shares per season
(app.py lines 355-364). -/

/-- One row as consumed by figure 8. -/
structure Row8 where
  year : Option ℚ
  centuries : Option ℚ
  halfCenturies : Option ℚ
  fours : Option ℚ
  sixes : Option ℚ
  runsScored : Option ℚ
deriving DecidableEq

/-- The `dropna` over the six core columns and the 2010-2024 season filter of
app.py lines 357-359. -/
def fig8Valid (rows : List Row8) : List Row8 :=
  rows.filter (fun r =>
    r.year.isSome && r.centuries.isSome && r.halfCenturies.isSome &&
    r.fours.isSome && r.sixes.isSome && r.runsScored.isSome &&
    decide (2010 ≤ r.year.getD 0) && decide (r.year.getD 0 ≤ 2024))

/-- The rows of one season group. -/
def fig8InYear (rows : List Row8) (y : ℚ) : List Row8 :=
  (fig8Valid rows).filter (fun r => decide (r.year = some y))

/-- The per-season column sum of the `groupby('Year').sum()` at app.py
line 361. -/
def fig8Sum (rows : List Row8) (y : ℚ) (f : Row8 → Option ℚ) : ℚ :=
  ((fig8InYear rows y).map (fun r => (f r).getD 0)).sum

/-- One component's percentage share of the season's `Runs_Scored` total:
`np.where(runs > 0, comp / runs * 100, 0)` (app.py line 364). -/
def fig8Share (rows : List Row8) (y : ℚ) (f : Row8 → Option ℚ) : ℚ :=
  if 0 < fig8Sum rows y (fun r => r.runsScored) then
    fig8Sum rows y f / fig8Sum rows y (fun r => r.runsScored) * 100
  else 0

/-- The sum of the four component shares of one season. -/
def fig8ShareSum (rows : List Row8) (y : ℚ) : ℚ :=
  fig8Share rows y (fun r => r.centuries) + fig8Share rows y (fun r => r.halfCenturies) +
  fig8Share rows y (fun r => r.fours) + fig8Share rows y (fun r => r.sixes)

/-! Figure 15 (family O): rule-based player-type shares per season
(app.py lines 573-591). -/

/-- One row as consumed by figure 15. -/
structure Row15 where
  player : Option String
  year : Option ℚ
  battingAverage : Option ℚ
  wicketsTaken : Option ℚ
deriving DecidableEq

/-- The four player types of app.py lines 579-584 (pure batsman, pure
bowler, all-rounder, marginal). -/
inductive PType
  | batsman
  | bowler
  | allRounder
  | marginal
deriving DecidableEq

/-- The first-match-wins classification rule `player_type` of app.py
lines 579-584, applied to the `fillna(0)` batting average and wickets. -/
def player_type (ba wt : ℚ) : PType :=
  if 25 ≤ ba ∧ wt ≤ 2 then PType.batsman
  else if 5 ≤ wt ∧ ba ≤ 15 then PType.bowler
  else if 20 ≤ ba ∧ 3 ≤ wt then PType.allRounder
  else PType.marginal

/-- The 2010-2024 season filter with present player name (app.py line 575). -/
def fig15Valid (rows : List Row15) : List Row15 :=
  rows.filter (fun r =>
    decide (2010 ≤ r.year.getD 0) && decide (r.year.getD 0 ≤ 2024) && r.player.isSome)

/-- The classification of one row. -/
def rowType (r : Row15) : PType :=
  player_type (r.battingAverage.getD 0) (r.wicketsTaken.getD 0)

/-- The rows of one season group. -/
def fig15InYear (rows : List Row15) (y : ℚ) : List Row15 :=
  (fig15Valid rows).filter (fun r => decide (r.year = some y))

/-- The per-season, per-type row count of the `groupby(['Year', '球员类型'])`
at app.py line 587. -/
def fig15Count (rows : List Row15) (y : ℚ) (t : PType) : ℕ :=
  ((fig15InYear rows y).filter (fun r => decide (rowType r = t))).length

/-- The per-season row count (the `总球员数` denominator of app.py line 588). -/
def fig15Total (rows : List Row15) (y : ℚ) : ℕ :=
  (fig15InYear rows y).length

/-- One type's percentage share of a season, rounded to one decimal
(app.py line 590). -/
def fig15Share (rows : List Row15) (y : ℚ) (t : PType) : ℚ :=
  round1 ((fig15Count rows y t : ℚ) / (fig15Total rows y : ℚ) * 100)

/-- The sum of the four type shares of one season. -/
def fig15ShareSum (rows : List Row15) (y : ℚ) : ℚ :=
  fig15Share rows y PType.batsman + fig15Share rows y PType.bowler +
  fig15Share rows y PType.allRounder + fig15Share rows y PType.marginal

/-! Figure 14 (family N): quadrant classification of bowlers by median split
(app.py lines 526-550). -/

/-- One row as consumed by figure 14. -/
structure Row14 where
  player : Option String
  year : Option ℚ
  economyRate : Option ℚ
  wicketsTaken : Option ℚ
  ballsBowled : Option ℚ
  matchesBowled : Option ℚ
deriving DecidableEq

/-- The row filters of app.py lines 528-532 (season 2020-2024, `fillna(0)`
numerics, positive balls bowled and economy rate), plus the dropping of
null group keys performed by `groupby('Player_Name')` at line 534. -/
def fig14Filtered (rows : List Row14) : List Row14 :=
  rows.filter (fun r =>
    decide (2020 ≤ r.year.getD 0) && decide (r.year.getD 0 ≤ 2024) &&
    decide (0 < r.ballsBowled.getD 0) && decide (0 < r.economyRate.getD 0) &&
    r.player.isSome)

/-- The per-player aggregates `pitcher_stats` of app.py lines 534-538:
(player, mean economy rate, wickets per 100 balls, total matches bowled). -/
def fig14Stats (rows : List Row14) : List (String × ℚ × ℚ × ℚ) :=
  (groupPairs ((fig14Filtered rows).map (fun r => (r.player.getD "", r)))).map
    (fun g => (g.1,
      mean (g.2.map (fun r => r.economyRate.getD 0)),
      (g.2.map (fun r => r.wicketsTaken.getD 0)).sum /
        (g.2.map (fun r => r.ballsBowled.getD 0)).sum * 100,
      (g.2.map (fun r => r.matchesBowled.getD 0)).sum))

/-- The validity (sanity-ceiling) filter of app.py line 539: mean economy
rate and wicket efficiency both below 15. -/
def fig14Valid (rows : List Row14) : List (String × ℚ × ℚ × ℚ) :=
  (fig14Stats rows).filter (fun s => decide (s.2.1 < 15) && decide (s.2.2.1 < 15))

/-- The economy-rate median of the valid population (app.py line 541). -/
def ecoMedian (rows : List Row14) : ℚ :=
  median ((fig14Valid rows).map (fun s => s.2.1))

/-- The wicket-efficiency median of the valid population (app.py line 542). -/
def wickMedian (rows : List Row14) : ℚ :=
  median ((fig14Valid rows).map (fun s => s.2.2.1))

/-- The four named quadrants of app.py lines 545-548 (`高效强攻型 Q1`,
`高效稳健型 Q2`, `低效强攻型 Q3`, `低效稳健型 Q4`). -/
inductive Quad
  | q1
  | q2
  | q3
  | q4
deriving DecidableEq

/-- The `quadrant` rule of app.py lines 544-548, first match wins. -/
def quadrantOf (eco wick ecoMed wickMed : ℚ) : Quad :=
  if eco < ecoMed ∧ wickMed < wick then Quad.q1
  else if eco < ecoMed ∧ wick ≤ wickMed then Quad.q2
  else if ecoMed ≤ eco ∧ wickMed < wick then Quad.q3
  else Quad.q4

/-- The quadrant assigned to one valid entity. -/
def fig14Quad (rows : List Row14) (s : String × ℚ × ℚ × ℚ) : Quad :=
  quadrantOf s.2.1 s.2.2.1 (ecoMedian rows) (wickMedian rows)

/-- The entities of one quadrant (the `quad_data` filters of app.py
lines 553-555). -/
def fig14QuadList (rows : List Row14) (q : Quad) : List (String × ℚ × ℚ × ℚ) :=
  (fig14Valid rows).filter (fun s => decide (fig14Quad rows s = q))

/-- The size of one quadrant (the `n=` counts of app.py line 555). -/
def fig14QuadCount (rows : List Row14) (q : Quad) : ℕ :=
  (fig14QuadList rows q).length

/-- The concrete scenario population for figure 14: four bowlers whose
aggregates land at (economy, efficiency) = (1,1), (1,9), (9,1), (9,9). -/
def c8Rows : List Row14 :=
  [⟨some "A", some 2020, some 1, some 1, some 100, some 1⟩,
   ⟨some "B", some 2020, some 1, some 9, some 100, some 1⟩,
   ⟨some "C", some 2020, some 9, some 1, some 100, some 1⟩,
   ⟨some "D", some 2020, some 9, some 9, some 100, some 1⟩]

/-! Figure 12 (family L): distinct players per season
(app.py lines 462-467). -/

/-- One row as consumed by figure 12. -/
structure Row12 where
  player : Option String
  year : Option ℚ
deriving DecidableEq

/-- The season filter of app.py line 465: present year between 2008 and
2024. -/
def fig12Valid (rows : List Row12) : List Row12 :=
  rows.filter (fun r =>
    r.year.isSome && decide (2008 ≤ r.year.getD 0) && decide (r.year.getD 0 ≤ 2024))

/-- The distinct-player count of one season: `nunique` counts distinct
non-null player names (app.py line 466). -/
def fig12Count (rows : List Row12) (y : ℚ) : ℕ :=
  ((((fig12Valid rows).filter (fun r => decide (r.year = some y))).filterMap
    (fun r => r.player)).dedup).length

/-- The seasons present in the filtered data, in ascending order (pandas
`groupby('Year')` sorts the keys; app.py line 467 sorts again). -/
def fig12Years (rows : List Row12) : List ℚ :=
  List.insertionSort (· ≤ ·) (((fig12Valid rows).map (fun r => r.year.getD 0)).dedup)

/-- The reported series of app.py lines 464-467: seasons whose distinct
player count is at least 10, with their counts, ascending by season. -/
def plot_fig12 (rows : List Row12) : List (ℚ × ℕ) :=
  ((fig12Years rows).filter (fun y => decide (10 ≤ fig12Count rows y))).map
    (fun y => (y, fig12Count rows y))

/-- A concrete population for figure 12: ten distinct players in season
2010. -/
def c10Rows : List Row12 :=
  [⟨some "P0", some 2010⟩, ⟨some "P1", some 2010⟩, ⟨some "P2", some 2010⟩,
   ⟨some "P3", some 2010⟩, ⟨some "P4", some 2010⟩, ⟨some "P5", some 2010⟩,
   ⟨some "P6", some 2010⟩, ⟨some "P7", some 2010⟩, ⟨some "P8", some 2010⟩,
   ⟨some "P9", some 2010⟩]

/-! Lemmas about first-occurrence deduplication. -/

theorem dedupFirst_mem_notSeen {l : List CleanRow} {seen : List (String × Option ℚ)}
    {r : CleanRow} (h : r ∈ dedupFirst l seen) : r ∈ l ∧ rowKey r ∉ seen := by
  induction l generalizing seen with
  | nil => simp [dedupFirst] at h
  | cons x xs ih =>
    by_cases hx : rowKey x ∈ seen
    · simp only [dedupFirst, if_pos hx] at h
      obtain ⟨h1, h2⟩ := ih h
      exact ⟨List.mem_cons_of_mem _ h1, h2⟩
    · simp only [dedupFirst, if_neg hx] at h
      rcases List.mem_cons.mp h with h1 | h1
      · exact ⟨by simp [h1], by rw [h1]; exact hx⟩
      · obtain ⟨h2, h3⟩ := ih h1
        exact ⟨List.mem_cons_of_mem _ h2,
          fun hc => h3 (List.mem_cons_of_mem _ hc)⟩

theorem dedupFirst_find {l : List CleanRow} {seen : List (String × Option ℚ)}
    {r : CleanRow} (h : r ∈ dedupFirst l seen) :
    l.find? (fun x => decide (rowKey x = rowKey r)) = some r := by
  induction l generalizing seen with
  | nil => simp [dedupFirst] at h
  | cons x xs ih =>
    by_cases hx : rowKey x ∈ seen
    · simp only [dedupFirst, if_pos hx] at h
      have hns := (dedupFirst_mem_notSeen h).2
      have hne : ¬rowKey x = rowKey r := fun he => hns (he ▸ hx)
      rw [List.find?_cons_of_neg _ (by simpa using hne)]
      exact ih h
    · simp only [dedupFirst, if_neg hx] at h
      rcases List.mem_cons.mp h with h1 | h1
      · subst h1
        rw [List.find?_cons_of_pos _ (by simp)]
      · have hns := (dedupFirst_mem_notSeen h1).2
        have hne : ¬rowKey x = rowKey r := fun he => hns (by simp [he])
        rw [List.find?_cons_of_neg _ (by simpa using hne)]
        exact ih h1

theorem dedupFirst_covers {l : List CleanRow} {seen : List (String × Option ℚ)}
    {r : CleanRow} (h : r ∈ l) (hs : rowKey r ∉ seen) :
    ∃ r2 ∈ dedupFirst l seen, rowKey r2 = rowKey r := by
  induction l generalizing seen with
  | nil => simp at h
  | cons x xs ih =>
    by_cases hx : rowKey x ∈ seen
    · simp only [dedupFirst, if_pos hx]
      rcases List.mem_cons.mp h with h1 | h1
      · exact absurd (by rw [h1]; exact hx) hs
      · exact ih h1 hs
    · simp only [dedupFirst, if_neg hx]
      by_cases hk : rowKey r = rowKey x
      · exact ⟨x, List.mem_cons_self _ _, hk.symm⟩
      · rcases List.mem_cons.mp h with h1 | h1
        · exact absurd (congrArg rowKey h1) hk
        · obtain ⟨r2, hr2, hk2⟩ := ih h1 (fun hc => (List.mem_cons.mp hc).elim hk hs)
          exact ⟨r2, List.mem_cons_of_mem _ hr2, hk2⟩

theorem dedupFirst_countP_eq_zero {l : List CleanRow} {seen : List (String × Option ℚ)}
    {k : String × Option ℚ} (hk : k ∈ seen) :
    (dedupFirst l seen).countP (fun r => decide (rowKey r = k)) = 0 := by
  induction l generalizing seen with
  | nil => simp [dedupFirst]
  | cons x xs ih =>
    by_cases hx : rowKey x ∈ seen
    · simp only [dedupFirst, if_pos hx]; exact ih hk
    · simp only [dedupFirst, if_neg hx]
      have hne : ¬rowKey x = k := fun he => hx (he ▸ hk)
      have h0 := ih (List.mem_cons_of_mem (rowKey x) hk)
      simp [List.countP_cons, hne, h0]

theorem dedupFirst_countP_le_one {l : List CleanRow} {seen : List (String × Option ℚ)}
    (k : String × Option ℚ) :
    (dedupFirst l seen).countP (fun r => decide (rowKey r = k)) ≤ 1 := by
  induction l generalizing seen with
  | nil => simp [dedupFirst]
  | cons x xs ih =>
    by_cases hx : rowKey x ∈ seen
    · simp only [dedupFirst, if_pos hx]; exact ih
    · simp only [dedupFirst, if_neg hx]
      by_cases hk : rowKey x = k
      · subst hk
        have h0 : (dedupFirst xs (rowKey x :: seen)).countP
            (fun r => decide (rowKey r = rowKey x)) = 0 :=
          dedupFirst_countP_eq_zero (List.mem_cons_self (rowKey x) seen)
        simp [List.countP_cons, h0]
      · have h1 : (dedupFirst xs (rowKey x :: seen)).countP
            (fun r => decide (rowKey r = k)) ≤ 1 := ih
        simpa [List.countP_cons, hk] using h1

/-- C1: for every raw input table, each (player, season) composite key
present in the cleaned pre-dedup data appears in exactly one row of the
canonical dataset (at least one by the second conjunct, at most one by the
third), and that row is the first row bearing that key in the original input
order (first conjunct; `rows.filterMap cleanFn` preserves the input order). -/
theorem c1_dedup_first_wins (rows : List RawRow) :
    (∀ r ∈ load_and_process_data rows,
      (rows.filterMap cleanFn).find? (fun x => decide (rowKey x = rowKey r)) = some r) ∧
    (∀ r ∈ rows.filterMap cleanFn,
      ∃ r2 ∈ load_and_process_data rows, rowKey r2 = rowKey r) ∧
    (∀ k, (load_and_process_data rows).countP (fun r => decide (rowKey r = k)) ≤ 1) := by
  refine ⟨fun r hr => dedupFirst_find hr,
    fun r hr => dedupFirst_covers hr (List.not_mem_nil _),
    fun k => dedupFirst_countP_le_one k⟩

/-- Witness for C1: a duplicated ("A", 2020) key (the first bearer carrying a
batting average of 150, nulled by the clip) keeps only its first row. -/
theorem c1_dedup_first_wins_witness :
    List.find? (fun x => decide (rowKey x = rowKey ⟨"A", some 2020, none, none⟩))
      (List.filterMap cleanFn
        [⟨some "A", RawCell.numeric 2020, RawCell.numeric 150, RawCell.missing⟩,
         ⟨some "A", RawCell.numeric 2020, RawCell.numeric 40, RawCell.missing⟩]) =
      some ⟨"A", some 2020, none, none⟩ :=
  (c1_dedup_first_wins
    [⟨some "A", RawCell.numeric 2020, RawCell.numeric 150, RawCell.missing⟩,
     ⟨some "A", RawCell.numeric 2020, RawCell.numeric 40, RawCell.missing⟩]).1
    ⟨"A", some 2020, none, none⟩ (by decide)

theorem clip100_le {u : Option ℚ} {v : ℚ} (h : clip100 u = some v) : v ≤ 100 := by
  cases u with
  | none => simp [clip100] at h
  | some w =>
    by_cases hw : 100 < w
    · simp [clip100, hw] at h
    · simp [clip100, hw] at h
      exact h ▸ not_lt.mp hw

/-- C2: every batting-average value above 100 is nulled during cleaning, so
no row of the canonical dataset carries a batting average above 100. -/
theorem c2_no_batting_average_above_100 (rows : List RawRow) :
    ∀ r ∈ load_and_process_data rows, ∀ v, r.battingAverage = some v → v ≤ 100 := by
  intro r hr v hv
  have h1 : r ∈ rows.filterMap cleanFn := (dedupFirst_mem_notSeen hr).1
  obtain ⟨raw, _, hclean⟩ := List.mem_filterMap.mp h1
  rcases hp : raw.player with _ | p
  · simp [cleanFn, hp] at hclean
  · by_cases hy : raw.year = RawCell.missing
    · simp [cleanFn, hp, hy] at hclean
    · simp [cleanFn, hp, hy] at hclean
      rw [← hclean] at hv
      exact clip100_le hv

/-- Witness for C2: a surviving batting average of 30 obeys the bound. -/
theorem c2_no_batting_average_above_100_witness : (30:ℚ) ≤ 100 :=
  c2_no_batting_average_above_100
    [⟨some "B", RawCell.numeric 2021, RawCell.numeric 30, RawCell.missing⟩]
    ⟨"B", some 2021, some 30, none⟩ (by decide) 30 (by decide)

/-- Counterexample for C3: a row whose season text does not parse as a
number is not excluded by cleaning; it is kept with a null season, so the
canonical dataset is not restricted to rows with a numeric season. -/
theorem c3_counterexample :
    load_and_process_data [⟨some "A", RawCell.text "TBD", RawCell.missing, RawCell.missing⟩] =
      [⟨"A", none, none, none⟩] := by
  decide

theorem cleanFn_eq_none {r : RawRow} (h : r.player = none ∨ r.year = RawCell.missing) :
    cleanFn r = none := by
  rcases h with h | h
  · simp [cleanFn, h]
  · rcases hp : r.player with _ | p
    · simp [cleanFn, hp]
    · simp [cleanFn, hp, h]

/-- C3 (amended): rows with a missing player identifier or a missing (NaN)
season are excluded before deduplication — removing them from the input does
not change the canonical dataset, and the row-local cleaning step maps each
of them to nothing.  Rows whose season is present but unparseable are kept
(with a null season), as `c3_counterexample` shows. -/
theorem c3_missing_key_rows_dropped (rows : List RawRow) :
    load_and_process_data rows =
      load_and_process_data (rows.filter
        (fun r => r.player.isSome && decide (r.year ≠ RawCell.missing))) ∧
    ∀ r ∈ rows, r.player = none ∨ r.year = RawCell.missing → cleanFn r = none := by
  constructor
  · have key : ∀ l : List RawRow,
        (l.filter (fun r => r.player.isSome && decide (r.year ≠ RawCell.missing))).filterMap
          cleanFn = l.filterMap cleanFn := by
      intro l
      induction l with
      | nil => simp
      | cons x xs ih =>
        have ih2 := ih
        simp only [ne_eq, decide_not] at ih2
        by_cases hx : (x.player.isSome && decide (x.year ≠ RawCell.missing)) = true
        · have hx2 : x.player.isSome = true ∧ ¬x.year = RawCell.missing := by
            simpa [Bool.and_eq_true] using hx
          simp [List.filter_cons, hx2.1, hx2.2, List.filterMap_cons, ih2]
        · have hx2 : ¬(x.player.isSome = true ∧ ¬x.year = RawCell.missing) := by
            simpa [Bool.and_eq_true] using hx
          have hnone : cleanFn x = none := by
            apply cleanFn_eq_none
            rcases not_and_or.mp hx2 with h | h
            · exact Or.inl (Option.not_isSome_iff_eq_none.mp h)
            · exact Or.inr (not_not.mp h)
          simp [List.filter_cons, hx2, List.filterMap_cons, hnone, ih2]
    unfold load_and_process_data
    rw [key]
  · exact fun r _ h => cleanFn_eq_none h

/-- Witness for C3 (amended): a row with a missing player name cleans to
nothing. -/
theorem c3_missing_key_rows_dropped_witness :
    cleanFn ⟨none, RawCell.numeric 2020, RawCell.missing, RawCell.missing⟩ = none :=
  (c3_missing_key_rows_dropped
    [⟨none, RawCell.numeric 2020, RawCell.missing, RawCell.missing⟩]).2
    ⟨none, RawCell.numeric 2020, RawCell.missing, RawCell.missing⟩ (by decide) (Or.inl rfl)

/-- Counterexample for C4: with a dataset whose only run value is `0`, the
positive-value filter leaves no rows, and the scoring-distribution
computation does not report zero shares — it divides `0` by `0`
(`ZeroDivisionError` at app.py line 96, rendered as `none`). -/
theorem c4_counterexample : fig1Shares [some 0, none] = none := by
  decide

/-- C4 (amended): the scoring-distribution shares are well-defined exactly
when the positive-value filter leaves at least one row; when the filtered
set is empty the computation fails with a division by zero instead of
reporting zero shares. -/
theorem c4_shares_defined_iff_nonempty (l : List (Option ℚ)) :
    (fig1Shares l).isSome ↔ posRuns l ≠ [] := by
  by_cases h : (posRuns l).length = 0
  · simp [fig1Shares, h, List.length_eq_zero.mp h]
  · simp only [fig1Shares, h, if_false, Option.isSome_some, true_iff]
    exact fun hc => h (by rw [hc]; rfl)

/-- Witness for C4 (amended): a dataset with one positive run value gets a
well-formed share record. -/
theorem c4_shares_defined_iff_nonempty_witness : (fig1Shares [some 5]).isSome :=
  (c4_shares_defined_iff_nonempty [some 5]).mpr (by decide)

/-! Arithmetic lemmas about ties-to-even rounding. -/

theorem rEven_intCast (n : ℤ) : rEven (n : ℚ) = n := by
  unfold rEven
  rw [Int.floor_intCast]
  norm_num

theorem abs_rEven_sub (x : ℚ) : |(rEven x : ℚ) - x| ≤ 1 / 2 := by
  have h1 : (⌊x⌋ : ℚ) ≤ x := Int.floor_le x
  have h2 : x < ⌊x⌋ + 1 := Int.lt_floor_add_one x
  unfold rEven
  split_ifs <;> (rw [abs_le]; constructor <;> push_cast <;> linarith)

theorem abs_round1_sub (x : ℚ) : |round1 x - x| ≤ 1 / 20 := by
  have h := abs_rEven_sub (10 * x)
  have e : round1 x - x = ((rEven (10 * x) : ℚ) - 10 * x) / 10 := by
    unfold round1; ring
  rw [e, abs_div, abs_of_pos (show (0:ℚ) < 10 by norm_num)]
  linarith

theorem rEven_nonneg {x : ℚ} (hx : 0 ≤ x) : 0 ≤ rEven x := by
  have h0 : (0:ℤ) ≤ ⌊x⌋ := Int.floor_nonneg.mpr hx
  unfold rEven
  split_ifs <;> omega

theorem rEven_le_of_le {x : ℚ} {n : ℤ} (hx : x ≤ n) : rEven x ≤ n := by
  have hf : ⌊x⌋ ≤ n := by
    have := Int.floor_le_floor hx
    rwa [Int.floor_intCast] at this
  have hfq : (⌊x⌋ : ℚ) ≤ x := Int.floor_le x
  unfold rEven
  split_ifs with h1 h2 h3
  · exact hf
  · by_contra hc
    push_neg at hc
    have h4 : (n:ℚ) ≤ (⌊x⌋ : ℚ) := by exact_mod_cast Int.lt_add_one_iff.mp hc
    linarith
  · exact hf
  · by_contra hc
    push_neg at hc
    have h4 : (n:ℚ) ≤ (⌊x⌋ : ℚ) := by exact_mod_cast Int.lt_add_one_iff.mp hc
    linarith

theorem round1_mem {x : ℚ} (h0 : 0 ≤ x) (h10 : x ≤ 10) :
    0 ≤ round1 x ∧ round1 x ≤ 10 := by
  have ha : 0 ≤ rEven (10 * x) := rEven_nonneg (by linarith)
  have hb : rEven (10 * x) ≤ (100:ℤ) := rEven_le_of_le (by push_cast; linarith)
  unfold round1
  constructor
  · exact div_nonneg (by exact_mod_cast ha) (by norm_num)
  · rw [div_le_iff₀ (by norm_num : (0:ℚ) < 10)]
    have hc : (rEven (10 * x) : ℚ) ≤ 100 := by exact_mod_cast hb
    linarith

theorem round1_five : round1 5 = 5 := by
  norm_num [round1, rEven]

theorem rEven_hundred_sub (y : ℚ) : rEven (100 - y) = 100 - rEven y := by
  have hfy : (⌊y⌋ : ℚ) ≤ y := Int.floor_le y
  have hfy2 : y < ⌊y⌋ + 1 := Int.lt_floor_add_one y
  by_cases hz : y = (⌊y⌋ : ℚ)
  · have h1 : 100 - y = ((100 - ⌊y⌋ : ℤ) : ℚ) := by push_cast; linarith
    rw [h1, rEven_intCast, hz, rEven_intCast, Int.floor_intCast]
  · have hfrac : 0 < y - ⌊y⌋ := by
      rcases lt_or_eq_of_le hfy with h | h
      · linarith
      · exact absurd h.symm hz
    have hfloor : ⌊100 - y⌋ = 99 - ⌊y⌋ := by
      rw [Int.floor_eq_iff]
      constructor <;> push_cast <;> linarith
    unfold rEven
    rw [hfloor]
    rcases lt_trichotomy (y - ⌊y⌋) (1/2 : ℚ) with hlt | heq | hgt
    · have c1 : ¬(100 - y - ((99 - ⌊y⌋ : ℤ) : ℚ) < 1/2) := by push_cast; linarith
      have c2 : (1:ℚ)/2 < 100 - y - ((99 - ⌊y⌋ : ℤ) : ℚ) := by push_cast; linarith
      rw [if_neg c1, if_pos c2, if_pos hlt]
      omega
    · have c1 : ¬(100 - y - ((99 - ⌊y⌋ : ℤ) : ℚ) < 1/2) := by push_cast; linarith
      have c2 : ¬((1:ℚ)/2 < 100 - y - ((99 - ⌊y⌋ : ℤ) : ℚ)) := by push_cast; linarith
      have d1 : ¬(y - ⌊y⌋ < 1/2) := by linarith
      have d2 : ¬((1:ℚ)/2 < y - ⌊y⌋) := by linarith
      rw [if_neg c1, if_neg c2, if_neg d1, if_neg d2]
      by_cases hp : ⌊y⌋ % 2 = 0
      · rw [if_pos hp, if_neg (by omega : ¬(99 - ⌊y⌋) % 2 = 0)]
        omega
      · rw [if_neg hp, if_pos (by omega : (99 - ⌊y⌋) % 2 = 0)]
        omega
    · have c1 : 100 - y - ((99 - ⌊y⌋ : ℤ) : ℚ) < 1/2 := by push_cast; linarith
      have d1 : ¬(y - ⌊y⌋ < 1/2) := by linarith
      rw [if_pos c1, if_neg d1, if_pos hgt]
      omega

theorem round1_ten_sub (u : ℚ) : round1 (10 - u) = 10 - round1 u := by
  unfold round1
  have h : 10 * (10 - u) = 100 - 10 * u := by ring
  rw [h, rEven_hundred_sub]
  push_cast
  ring

/-! Lemmas about the radar normalization. -/

theorem normalize_indicator_mem (v mn mx : ℚ) (b : Bool) :
    0 ≤ normalize_indicator v mn mx b ∧ normalize_indicator v mn mx b ≤ 10 := by
  unfold normalize_indicator
  by_cases h : mx = mn
  · rw [if_pos h]; norm_num
  · rw [if_neg h]
    exact ⟨le_max_left _ _, max_le (by norm_num) (min_le_left _ _)⟩

theorem clamp_ten_sub (t : ℚ) : max 0 (min 10 (10 - t)) = 10 - max 0 (min 10 t) := by
  simp only [max_def, min_def]
  split_ifs <;> linarith

theorem normalize_indicator_reverse (v mn mx : ℚ) :
    normalize_indicator v mn mx true = 10 - normalize_indicator v mn mx false := by
  unfold normalize_indicator
  by_cases h : mx = mn
  · rw [if_pos h, if_pos h]; norm_num
  · rw [if_neg h, if_neg h]
    simpa using clamp_ten_sub ((v - mn) / (mx - mn) * 10)

theorem metricScores_mem {vals : List ℚ} {b : Bool} {s : ℚ}
    (hs : s ∈ metricScores vals b) : 0 ≤ s ∧ s ≤ 10 := by
  obtain ⟨v, _, he⟩ := List.mem_map.mp hs
  obtain ⟨h1, h2⟩ := normalize_indicator_mem v (extremes vals).1 (extremes vals).2 b
  have h3 := round1_mem h1 h2
  rwa [he] at h3

theorem extremes_cons_zero (vals : List ℚ) : extremes (0 :: vals) = extremes vals := by
  have h : (0 :: vals).filter (fun v => decide (0 < v)) =
      vals.filter (fun v => decide (0 < v)) := by
    rw [List.filter_cons]
    norm_num
  unfold extremes
  rw [h]

theorem extremes_filter_pos (vals : List ℚ) :
    extremes vals = extremes (vals.filter (fun v => decide (0 < v))) := by
  have h : (vals.filter (fun v => decide (0 < v))).filter (fun v => decide (0 < v)) =
      vals.filter (fun v => decide (0 < v)) := by
    rw [List.filter_filter]
    congr 1
    funext a
    exact Bool.and_self _
  unfold extremes
  rw [h]

/-- Counterexample for C5: when every representative record carries the value
0 for a metric, the metric's maximum equals its minimum across the selected
records, yet every entity receives the score 0, not the midpoint 5.0 (no
value is strictly positive, so the extremes fall back to `(0, 1)`). -/
theorem c5_counterexample :
    metricScores [0, 0, 0] false = [0, 0, 0] ∧ (0:ℚ) ≠ 5 := by
  constructor
  · norm_num [metricScores, extremes, List.filter, normalize_indicator, round1, rEven]
  · norm_num

/-- C5 (amended): every radar score lies in `[0, 10]`; a reverse-scored
metric's score is 10 minus the forward score (both before and after the
one-decimal rounding); and whenever the normalization extremes coincide —
the metric's maximum equals its minimum over the strictly positive values,
at least one value being positive — every entity receives the midpoint 5.0.
When no value is positive the default extremes `(0, 1)` apply instead, and
an all-zero metric scores 0 (see the counterexample). -/
theorem c5_radar_bounds_reverse_midpoint :
    (∀ (vals : List ℚ) (b : Bool), ∀ s ∈ metricScores vals b, 0 ≤ s ∧ s ≤ 10) ∧
    (∀ v mn mx : ℚ,
      normalize_indicator v mn mx true = 10 - normalize_indicator v mn mx false) ∧
    (∀ v mn mx : ℚ, round1 (normalize_indicator v mn mx true) =
      10 - round1 (normalize_indicator v mn mx false)) ∧
    (∀ (vals : List ℚ) (b : Bool), (extremes vals).1 = (extremes vals).2 →
      ∀ s ∈ metricScores vals b, s = 5) := by
  refine ⟨fun vals b s hs => metricScores_mem hs,
    fun v mn mx => normalize_indicator_reverse v mn mx, ?_, ?_⟩
  · intro v mn mx
    rw [normalize_indicator_reverse, round1_ten_sub]
  · intro vals b h s hs
    obtain ⟨v, _, he⟩ := List.mem_map.mp hs
    rw [← he]
    have h5 : normalize_indicator v (extremes vals).1 (extremes vals).2 b = 5 := by
      unfold normalize_indicator
      rw [if_pos h.symm]
    rw [h5, round1_five]

/-- Witness for C5 (amended): two representative records both holding the
value 3 make the extremes coincide, and the score is the midpoint 5. -/
theorem c5_radar_bounds_reverse_midpoint_witness :
    round1 (normalize_indicator 3 (extremes [3, 3]).1 (extremes [3, 3]).2 false) = 5 :=
  c5_radar_bounds_reverse_midpoint.2.2.2 [3, 3] false (by decide) _
    (List.mem_map_of_mem _ (by decide))

/-- C9: the extremes used to normalize a radar metric are computed only over
the strictly positive values among the representative records (nulls first
substituted by 0): a null record and a zero-valued record leave the extremes
unchanged, yet every record — the zero-valued ones included — is scored
(one score per record) with its score clamped into `[0, 10]`. -/
theorem c9_extremes_positive_only :
    (∀ l : List (Option ℚ), extremes (fillZero (none :: l)) = extremes (fillZero l)) ∧
    (∀ vals : List ℚ,
      extremes vals = extremes (vals.filter (fun v => decide (0 < v)))) ∧
    (∀ vals : List ℚ, extremes (0 :: vals) = extremes vals) ∧
    (∀ (vals : List ℚ) (b : Bool), (metricScores vals b).length = vals.length) ∧
    (∀ (vals : List ℚ) (b : Bool), ∀ s ∈ metricScores vals b, 0 ≤ s ∧ s ≤ 10) := by
  refine ⟨?_, extremes_filter_pos, extremes_cons_zero, ?_, fun vals b s hs => metricScores_mem hs⟩
  · intro l
    have h : fillZero (none :: l) = 0 :: fillZero l := rfl
    rw [h, extremes_cons_zero]
  · intro vals b
    exact List.length_map _ _

/-- Witness for C9: scoring a record whose value 2 lies between the extremes
of `[2, 4]` stays within the bounds. -/
theorem c9_extremes_positive_only_witness :
    0 ≤ round1 (normalize_indicator 2 (extremes [2, 4]).1 (extremes [2, 4]).2 true) ∧
    round1 (normalize_indicator 2 (extremes [2, 4]).1 (extremes [2, 4]).2 true) ≤ 10 :=
  c9_extremes_positive_only.2.2.2.2 [2, 4] true _ (List.mem_map_of_mem _ (by decide))

/-! Lemmas about the grouping helper. -/

theorem groupUpd_mem {α : Type} {acc : List (String × List α)} {k : String} {v : α}
    {g : String × List α} (h : g ∈ groupUpd acc k v) :
    g ∈ acc ∨ g.2 = [v] ∨ ∃ vs, (g.1, vs) ∈ acc ∧ g.2 = vs ++ [v] := by
  induction acc with
  | nil =>
    simp only [groupUpd, List.mem_singleton] at h
    exact Or.inr (Or.inl (by rw [h]))
  | cons p rest ih =>
    obtain ⟨k2, vs⟩ := p
    by_cases hk : k2 = k
    · simp only [groupUpd, if_pos hk] at h
      rcases List.mem_cons.mp h with h1 | h1
      · exact Or.inr (Or.inr ⟨vs, by rw [h1]; exact List.mem_cons_self _ _, by rw [h1]⟩)
      · exact Or.inl (List.mem_cons_of_mem _ h1)
    · simp only [groupUpd, if_neg hk] at h
      rcases List.mem_cons.mp h with h1 | h1
      · exact Or.inl (by rw [h1]; exact List.mem_cons_self _ _)
      · rcases ih h1 with h2 | h2 | ⟨vs2, hv2, he⟩
        · exact Or.inl (List.mem_cons_of_mem _ h2)
        · exact Or.inr (Or.inl h2)
        · exact Or.inr (Or.inr ⟨vs2, List.mem_cons_of_mem _ hv2, he⟩)

theorem groupPairs_inv {α : Type} (C : α → Prop) (l : List (String × α))
    (hl : ∀ p ∈ l, C p.2) :
    ∀ g ∈ groupPairs l, g.2 ≠ [] ∧ ∀ x ∈ g.2, C x := by
  suffices h : ∀ (l2 : List (String × α)) (acc : List (String × List α)),
      (∀ g ∈ acc, g.2 ≠ [] ∧ ∀ x ∈ g.2, C x) → (∀ p ∈ l2, C p.2) →
      ∀ g ∈ l2.foldl (fun a kv => groupUpd a kv.1 kv.2) acc, g.2 ≠ [] ∧ ∀ x ∈ g.2, C x by
    exact h l [] (fun g hg => absurd hg (List.not_mem_nil _)) hl
  intro l2
  induction l2 with
  | nil => intro acc hacc _ g hg; exact hacc g hg
  | cons p rest ih =>
    intro acc hacc hl2 g hg
    simp only [List.foldl_cons] at hg
    have hnew : ∀ g2 ∈ groupUpd acc p.1 p.2, g2.2 ≠ [] ∧ ∀ x ∈ g2.2, C x := by
      intro g2 hg2
      rcases groupUpd_mem hg2 with h1 | h1 | ⟨vs, hv, he⟩
      · exact hacc g2 h1
      · refine ⟨by rw [h1]; simp, ?_⟩
        intro x hx
        rw [h1, List.mem_singleton] at hx
        rw [hx]
        exact hl2 p (List.mem_cons_self _ _)
      · obtain ⟨_, hall⟩ := hacc (g2.1, vs) hv
        refine ⟨by rw [he]; simp, ?_⟩
        intro x hx
        rw [he] at hx
        rcases List.mem_append.mp hx with h2 | h2
        · exact hall x h2
        · rw [List.mem_singleton.mp h2]
          exact hl2 p (List.mem_cons_self _ _)
    exact ih (groupUpd acc p.1 p.2) hnew
      (fun q hq => hl2 q (List.mem_cons_of_mem _ hq)) g hg

theorem fig13Groups_pos (rows : List Row13) :
    ∀ g ∈ fig13Groups rows, g.2 ≠ [] ∧ ∀ x ∈ g.2, 0 < x := by
  unfold fig13Groups
  apply groupPairs_inv
  intro p hp
  obtain ⟨r, hr, he⟩ := List.mem_map.mp hp
  have hb : 0 < r.battingAverage.getD 0 := by
    have h2 := (List.mem_filter.mp hr).2
    simp only [Bool.and_eq_true, decide_eq_true_eq] at h2
    exact h2.1.1
  rw [← he]
  exact hb

theorem mean_pos {l : List ℚ} (hne : l ≠ []) (hpos : ∀ x ∈ l, 0 < x) : 0 < mean l := by
  unfold mean
  apply div_pos
  · exact List.sum_pos l hpos hne
  · exact_mod_cast List.length_pos.mpr hne

theorem pvar_singleton (x : ℚ) : pvar [x] = 0 := by
  simp [pvar, mean]

theorem pvar_const3 (x : ℚ) : pvar [x, x, x] = 0 := by
  have hm : mean [x, x, x] = x := by
    have hs : ([x, x, x] : List ℚ).sum = 3 * x := by simp; ring
    have hl : ((([x, x, x] : List ℚ).length : ℕ) : ℚ) = 3 := by simp
    unfold mean
    rw [hs, hl]
    exact mul_div_cancel_left₀ x (by norm_num)
  unfold pvar
  rw [hm]
  simp

theorem cv_of_pvar_zero {l : List ℚ} (h : pvar l = 0) : cv l = 0 := by
  unfold cv
  rw [h]
  simp

theorem fig13Keeps_of_pvar_zero {l : List ℚ} (h : pvar l = 0) : fig13Keeps l := by
  unfold fig13Keeps
  rw [cv_of_pvar_zero h]
  norm_num

/-- Counterexample for C6: an entity with a single observation is NOT
excluded: `np.std` of one value is 0 (population standard deviation), its
coefficient of variation is 0, and the 2.0 cutoff keeps it. -/
theorem c6_counterexample :
    fig13Groups [⟨some "A", some 2020, some 10⟩] = [("A", [10])] ∧
    cv [10] = 0 ∧ fig13Keeps [10] :=
  ⟨by decide, cv_of_pvar_zero (pvar_singleton 10), fig13Keeps_of_pvar_zero (pvar_singleton 10)⟩

/-- C6 (amended): a coefficient of variation (population standard deviation
over mean) is assigned to every grouped entity, including entities with a
single observation, whose CV is 0 and who are therefore included; an entity
is kept exactly when its CV is at most 2.0; an entity with values
`[10, 10, 10]` has CV 0 and is included; and a mean of zero cannot occur,
because only strictly positive batting averages are grouped, so every
group's mean is strictly positive. -/
theorem c6_cv_inclusion :
    (∀ rows : List Row13, ∀ g ∈ fig13Groups rows,
      g.2 ≠ [] ∧ (∀ x ∈ g.2, 0 < x) ∧ 0 < mean g.2) ∧
    (∀ x : ℚ, 0 < x → cv [x] = 0 ∧ fig13Keeps [x]) ∧
    (cv [10, 10, 10] = 0 ∧ fig13Keeps [10, 10, 10]) ∧
    (∀ l : List ℚ, fig13Keeps l ↔ cv l ≤ 2) := by
  refine ⟨?_, ?_, ?_, fun l => Iff.rfl⟩
  · intro rows g hg
    obtain ⟨hne, hpos⟩ := fig13Groups_pos rows g hg
    exact ⟨hne, hpos, mean_pos hne hpos⟩
  · intro x _
    exact ⟨cv_of_pvar_zero (pvar_singleton x), fig13Keeps_of_pvar_zero (pvar_singleton x)⟩
  · exact ⟨cv_of_pvar_zero (pvar_const3 10), fig13Keeps_of_pvar_zero (pvar_const3 10)⟩

/-- Witness for C6 (amended): the singleton entity with value 7 has CV 0 and
is kept. -/
theorem c6_cv_inclusion_witness : cv [(7:ℚ)] = 0 ∧ fig13Keeps [(7:ℚ)] :=
  c6_cv_inclusion.2.1 7 (by norm_num)

/-- Partition of a list length by a four-valued classification: the lengths
of the four filtered sublists sum to the length of the list. -/
theorem length_filter_four {α β : Type} [DecidableEq β] (l : List α) (f : α → β)
    (b1 b2 b3 b4 : β)
    (hcover : ∀ x, f x = b1 ∨ f x = b2 ∨ f x = b3 ∨ f x = b4)
    (h12 : b1 ≠ b2) (h13 : b1 ≠ b3) (h14 : b1 ≠ b4)
    (h23 : b2 ≠ b3) (h24 : b2 ≠ b4) (h34 : b3 ≠ b4) :
    (l.filter (fun x => decide (f x = b1))).length +
    (l.filter (fun x => decide (f x = b2))).length +
    (l.filter (fun x => decide (f x = b3))).length +
    (l.filter (fun x => decide (f x = b4))).length = l.length := by
  induction l with
  | nil => simp
  | cons x xs ih =>
    simp only [List.filter_cons, List.length_cons]
    rcases hcover x with h | h | h | h <;>
      simp [h, h12, h13, h14, h23, h24, h34,
        Ne.symm h12, Ne.symm h13, Ne.symm h14, Ne.symm h23, Ne.symm h24, Ne.symm h34] <;>
      omega

theorem fig15_counts_sum (rows : List Row15) (y : ℚ) :
    fig15Count rows y PType.batsman + fig15Count rows y PType.bowler +
    fig15Count rows y PType.allRounder + fig15Count rows y PType.marginal =
    fig15Total rows y := by
  unfold fig15Count fig15Total
  exact length_filter_four _ rowType PType.batsman PType.bowler PType.allRounder
    PType.marginal (fun x => by cases hx : rowType x <;> simp [hx])
    (by decide) (by decide) (by decide) (by decide) (by decide) (by decide)

theorem fig15_share_sum {rows : List Row15} {y : ℚ} (h : 0 < fig15Total rows y) :
    |fig15ShareSum rows y - 100| ≤ 1/5 := by
  have hsum := fig15_counts_sum rows y
  have ht : (0:ℚ) < (fig15Total rows y : ℚ) := by exact_mod_cast h
  have hc : ((fig15Count rows y PType.batsman : ℚ) + (fig15Count rows y PType.bowler : ℚ) +
      (fig15Count rows y PType.allRounder : ℚ) + (fig15Count rows y PType.marginal : ℚ)) =
      (fig15Total rows y : ℚ) := by exact_mod_cast hsum
  have hexact : (fig15Count rows y PType.batsman : ℚ) / (fig15Total rows y : ℚ) * 100 +
      (fig15Count rows y PType.bowler : ℚ) / (fig15Total rows y : ℚ) * 100 +
      (fig15Count rows y PType.allRounder : ℚ) / (fig15Total rows y : ℚ) * 100 +
      (fig15Count rows y PType.marginal : ℚ) / (fig15Total rows y : ℚ) * 100 = 100 := by
    field_simp
    linarith
  have e1 := abs_round1_sub ((fig15Count rows y PType.batsman : ℚ) / (fig15Total rows y : ℚ) * 100)
  have e2 := abs_round1_sub ((fig15Count rows y PType.bowler : ℚ) / (fig15Total rows y : ℚ) * 100)
  have e3 := abs_round1_sub ((fig15Count rows y PType.allRounder : ℚ) / (fig15Total rows y : ℚ) * 100)
  have e4 := abs_round1_sub ((fig15Count rows y PType.marginal : ℚ) / (fig15Total rows y : ℚ) * 100)
  unfold fig15ShareSum fig15Share
  rw [abs_le] at e1 e2 e3 e4 ⊢
  constructor <;> [linarith [e1.1, e2.1, e3.1, e4.1]; linarith [e1.2, e2.2, e3.2, e4.2]]

/-- Counterexample for C7: in the score-structure analysis (family H) the
four components are milestone and boundary counts, not parts of the runs
total, so their shares need not sum to 100 even when the denominator is
nonzero: one 2010 row with 1 century, 1 half-century, 1 four, 1 six and 100
runs yields shares summing to 4. -/
theorem c7_counterexample :
    fig8Sum [⟨some 2010, some 1, some 1, some 1, some 1, some 100⟩] 2010
      (fun r => r.runsScored) = 100 ∧
    fig8ShareSum [⟨some 2010, some 1, some 1, some 1, some 1, some 100⟩] 2010 = 4 ∧
    (4:ℚ) ≠ 100 := by
  refine ⟨?_, ?_, by norm_num⟩
  · norm_num [fig8Sum, fig8InYear, fig8Valid, List.filter]
  · norm_num [fig8ShareSum, fig8Share, fig8Sum, fig8InYear, fig8Valid, List.filter]

/-- C7 (amended): in family H (figure 8), all four component shares are 0
for a season whose runs total is zero, but they do not in general sum to 100
(see the counterexample); in family O (figure 15), for every season with a
positive row count the four type shares sum to 100 within the one-decimal
rounding tolerance of ±0.2 (the denominator of a reported season is always
its positive row count). -/
theorem c7_share_invariants :
    (∀ (rows : List Row8) (y : ℚ), fig8Sum rows y (fun r => r.runsScored) = 0 →
      fig8Share rows y (fun r => r.centuries) = 0 ∧
      fig8Share rows y (fun r => r.halfCenturies) = 0 ∧
      fig8Share rows y (fun r => r.fours) = 0 ∧
      fig8Share rows y (fun r => r.sixes) = 0) ∧
    (∀ (rows : List Row15) (y : ℚ), 0 < fig15Total rows y →
      |fig15ShareSum rows y - 100| ≤ 1/5) := by
  constructor
  · intro rows y h
    refine ⟨?_, ?_, ?_, ?_⟩ <;> simp [fig8Share, h]
  · intro rows y h
    exact fig15_share_sum h

/-- Witness for C7 (amended): a single 2010 all-rounder row gives a type
share sum within tolerance of 100, and an empty figure-8 season has zero
shares. -/
theorem c7_share_invariants_witness :
    |fig15ShareSum [⟨some "A", some 2010, some 30, some 0⟩] 2010 - 100| ≤ 1/5 :=
  c7_share_invariants.2 [⟨some "A", some 2010, some 30, some 0⟩] 2010 (by decide)

theorem fig14_c8Rows_groups :
    groupPairs ((fig14Filtered c8Rows).map (fun r => (r.player.getD "", r))) =
    [("A", [⟨some "A", some 2020, some 1, some 1, some 100, some 1⟩]),
     ("B", [⟨some "B", some 2020, some 1, some 9, some 100, some 1⟩]),
     ("C", [⟨some "C", some 2020, some 9, some 1, some 100, some 1⟩]),
     ("D", [⟨some "D", some 2020, some 9, some 9, some 100, some 1⟩])] := by
  decide

theorem fig14_c8Rows_stats : fig14Stats c8Rows =
    [("A", 1, 1, 1), ("B", 1, 9, 1), ("C", 9, 1, 1), ("D", 9, 9, 1)] := by
  unfold fig14Stats
  rw [fig14_c8Rows_groups]
  norm_num [mean]

theorem fig14_c8Rows_valid : fig14Valid c8Rows =
    [("A", 1, 1, 1), ("B", 1, 9, 1), ("C", 9, 1, 1), ("D", 9, 9, 1)] := by
  unfold fig14Valid
  rw [fig14_c8Rows_stats]
  norm_num [List.filter]

theorem fig14_c8Rows_eco : ecoMedian c8Rows = 5 := by
  unfold ecoMedian
  rw [fig14_c8Rows_valid]
  norm_num [median, List.insertionSort, List.orderedInsert, List.getD]

theorem fig14_c8Rows_wick : wickMedian c8Rows = 5 := by
  unfold wickMedian
  rw [fig14_c8Rows_valid]
  norm_num [median, List.insertionSort, List.orderedInsert, List.getD]

theorem fig14_c8Rows_counts :
    fig14QuadCount c8Rows Quad.q1 = 1 ∧ fig14QuadCount c8Rows Quad.q2 = 1 ∧
    fig14QuadCount c8Rows Quad.q3 = 1 ∧ fig14QuadCount c8Rows Quad.q4 = 1 := by
  unfold fig14QuadCount fig14QuadList
  rw [fig14_c8Rows_valid]
  norm_num [fig14Quad, quadrantOf, fig14_c8Rows_eco, fig14_c8Rows_wick,
    List.filter_cons, List.filter_nil]
  decide

/-- C8: every entity passing the validity filters is assigned to exactly one
of the four named quadrants by comparing its two aggregated values against
the population medians; the four quadrant counts sum to the number of valid
entities; and the four bowlers at (economy, efficiency) = (1,1), (1,9),
(9,1), (9,9) — whose medians are (5, 5) — land one per quadrant. -/
theorem c8_quadrant_partition :
    (∀ rows : List Row14,
      fig14QuadCount rows Quad.q1 + fig14QuadCount rows Quad.q2 +
      fig14QuadCount rows Quad.q3 + fig14QuadCount rows Quad.q4 =
      (fig14Valid rows).length) ∧
    (∀ rows : List Row14, ∀ s ∈ fig14Valid rows,
      ∃ q : Quad, s ∈ fig14QuadList rows q ∧
        ∀ p : Quad, s ∈ fig14QuadList rows p → p = q) ∧
    (ecoMedian c8Rows = 5 ∧ wickMedian c8Rows = 5 ∧
      fig14QuadCount c8Rows Quad.q1 = 1 ∧ fig14QuadCount c8Rows Quad.q2 = 1 ∧
      fig14QuadCount c8Rows Quad.q3 = 1 ∧ fig14QuadCount c8Rows Quad.q4 = 1) := by
  refine ⟨?_, ?_, fig14_c8Rows_eco, fig14_c8Rows_wick, fig14_c8Rows_counts.1,
    fig14_c8Rows_counts.2.1, fig14_c8Rows_counts.2.2.1, fig14_c8Rows_counts.2.2.2⟩
  · intro rows
    unfold fig14QuadCount fig14QuadList
    exact length_filter_four _ (fig14Quad rows) Quad.q1 Quad.q2 Quad.q3 Quad.q4
      (fun x => by cases hx : fig14Quad rows x <;> simp [hx])
      (by decide) (by decide) (by decide) (by decide) (by decide) (by decide)
  · intro rows s hs
    refine ⟨fig14Quad rows s, List.mem_filter.mpr ⟨hs, by simp⟩, ?_⟩
    intro qq hqq
    have h2 := (List.mem_filter.mp hqq).2
    simp only [decide_eq_true_eq] at h2
    exact h2.symm

/-- Witness for C8: the bowler aggregated at (1, 1) is in exactly one
quadrant of the scenario population. -/
theorem c8_quadrant_partition_witness :
    ∃ q : Quad, (("A", 1, 1, 1) : String × ℚ × ℚ × ℚ) ∈ fig14QuadList c8Rows q ∧
      ∀ p : Quad, (("A", 1, 1, 1) : String × ℚ × ℚ × ℚ) ∈ fig14QuadList c8Rows p → p = q :=
  c8_quadrant_partition.2.1 c8Rows ("A", 1, 1, 1) (by simp [fig14_c8Rows_valid])

theorem fig12Years_mem_bounds {rows : List Row12} {y : ℚ} (hy : y ∈ fig12Years rows) :
    2008 ≤ y ∧ y ≤ 2024 := by
  unfold fig12Years at hy
  have h1 : y ∈ (((fig12Valid rows).map (fun r => r.year.getD 0)).dedup) :=
    (List.Perm.mem_iff (List.perm_insertionSort _ _)).mp hy
  have h2 : y ∈ (fig12Valid rows).map (fun r => r.year.getD 0) := List.mem_dedup.mp h1
  obtain ⟨r, hr, he⟩ := List.mem_map.mp h2
  have h3 := (List.mem_filter.mp hr).2
  simp only [Bool.and_eq_true, decide_eq_true_eq] at h3
  rw [← he]
  exact ⟨h3.1.2, h3.2⟩

/-- C10: every season reported by the participation analysis has at least 10
distinct players (seasons below the threshold are omitted), every reported
season lies between 2008 and 2024 and carries its true distinct-player
count, the report is sorted ascending by season, and — conversely — every
season of the filtered data whose distinct-player count reaches 10 is
reported. -/
theorem c10_fig12_threshold :
    (∀ rows : List Row12, ∀ p ∈ plot_fig12 rows,
      10 ≤ p.2 ∧ 2008 ≤ p.1 ∧ p.1 ≤ 2024 ∧ p.2 = fig12Count rows p.1) ∧
    (∀ rows : List Row12, (plot_fig12 rows).Pairwise (fun a b => a.1 ≤ b.1)) ∧
    (∀ (rows : List Row12) (r : Row12), r ∈ fig12Valid rows →
      10 ≤ fig12Count rows (r.year.getD 0) →
      (r.year.getD 0, fig12Count rows (r.year.getD 0)) ∈ plot_fig12 rows) := by
  refine ⟨?_, ?_, ?_⟩
  · intro rows p hp
    obtain ⟨y, hy, he⟩ := List.mem_map.mp hp
    have h1 := List.mem_filter.mp hy
    have h2 : 10 ≤ fig12Count rows y := by
      have := h1.2
      simpa using this
    obtain ⟨hb1, hb2⟩ := fig12Years_mem_bounds h1.1
    rw [← he]
    exact ⟨h2, hb1, hb2, rfl⟩
  · intro rows
    have hs : (fig12Years rows).Pairwise (· ≤ ·) :=
      List.sorted_insertionSort _ _
    have hf : ((fig12Years rows).filter
        (fun y => decide (10 ≤ fig12Count rows y))).Pairwise (· ≤ ·) :=
      hs.sublist (List.filter_sublist _)
    unfold plot_fig12
    exact (List.pairwise_map).mpr (hf.imp (fun h => h))
  · intro rows r hr hc
    have h1 : r.year.getD 0 ∈ (fig12Valid rows).map (fun r => r.year.getD 0) :=
      List.mem_map_of_mem _ hr
    have h2 : r.year.getD 0 ∈ fig12Years rows :=
      (List.Perm.mem_iff (List.perm_insertionSort _ _)).mpr (List.mem_dedup.mpr h1)
    have h3 : r.year.getD 0 ∈ (fig12Years rows).filter
        (fun y => decide (10 ≤ fig12Count rows y)) :=
      List.mem_filter.mpr ⟨h2, by simpa using hc⟩
    exact List.mem_map_of_mem _ h3

/-- Witness for C10: ten distinct players in season 2010 put (2010, 10) in
the report. -/
theorem c10_fig12_threshold_witness :
    ((2010:ℚ), fig12Count c10Rows 2010) ∈ plot_fig12 c10Rows :=
  c10_fig12_threshold.2.2 c10Rows ⟨some "P0", some 2010⟩ (by decide) (by decide)

end IPL
